import Mathlib

/-!
Shallow embedding of the copy-trade engine in `src/bot/copytrade-base.js`
(the auto-sell variant) together with the durable-state reader in
`src/app/api/copytrade/logs/route.ts`.

Network effects (RPC reads, 0x quotes, transaction submission) are modelled
by an explicit per-signal environment `Env` recording the outcome of each
external call; the engine step is then a pure function of the environment
and the in-memory state, mirroring the JavaScript control flow line by line.
Durable writes (`persistState` → `fs.writeFileSync`) are modelled as an
ordered history of atomic snapshots.
-/

namespace Clawnch

/-- `keccak256("Transfer(address,address,uint256)")`, the constant
`TRANSFER_TOPIC` of the bot. -/
def TRANSFER_TOPIC : String :=
  "0xddf252ad1be2c89b69c2b068fc378daa952ba7f163c4a11628f55a4df523b3ef"

/-- The 0x native-currency placeholder address `ETH_PLACEHOLDER`. -/
def ETH_PLACEHOLDER : String := "0xeeeeeeeeeeeeeeeeeeeeeeeeeeeeeeeeeeeeeeee"

/-- `maxUint256` from viem: the largest 256-bit unsigned integer. -/
def maxUint256 : Nat := 2 ^ 256 - 1

/-- `normalizeAddr(a)`: lower-case the string (JS `String(a).toLowerCase()`). -/
def normalizeAddr (a : String) : String := String.mk (a.data.map Char.toLower)

/-- One hex digit, as tested by the character class of `isHexAddress`. -/
def isHexDigit (c : Char) : Bool :=
  c.isDigit || (decide ('a' ≤ c) && decide (c ≤ 'f')) || (decide ('A' ≤ c) && decide (c ≤ 'F'))

/-- `isHexAddress(a)`: `/^0x[0-9a-fA-F]{40}$/.test(a)`. -/
def isHexAddress (a : String) : Bool :=
  a.length == 42 && a.take 2 == "0x" && (a.drop 2).data.all isHexDigit

/-- Trade side: the string `'buy'` / `'sell'` of the bot. -/
inductive Side where
  | buy
  | sell
deriving DecidableEq, Repr

/-- The string the bot interpolates for a side. -/
def sideStr : Side → String
  | Side.buy => "buy"
  | Side.sell => "sell"

/-- The dedup key `` `${hash}:${token}:${side}` ``. -/
def dedupKey (hash token : String) (side : Side) : String :=
  hash ++ ":" ++ token ++ ":" ++ sideStr side

/-- One entry of `state.trades` (fields pushed by the bot). -/
structure Trade where
  tsMs : Int
  side : Side
  dryRun : Bool
  token : String
  watchedHash : String
  signalAmount : Nat
  sellTokenAmount : Option Nat
  quoteBuyAmount : Option Nat
  followerTx : Option String
deriving DecidableEq, Repr

/-- In-memory engine state (`state` in `run`). -/
structure EngineState where
  seen : List String
  trades : List Trade
  lastScannedBlock : Option Int
deriving DecidableEq, Repr

/-- `buildState` on a missing/empty state file. -/
def initialState : EngineState := { seen := [], trades := [], lastScannedBlock := none }

/-- One durable snapshot written by `persistState` (the `trimmed` object):
`seen.slice(-20000)`, `trades.slice(-2000)`, the cursor. -/
structure PersistedState where
  seen : List String
  trades : List Trade
  lastScannedBlock : Option Int
deriving DecidableEq, Repr

/-- `persistState(stateFile, state)`: the snapshot written to disk. -/
def persistState (s : EngineState) : PersistedState :=
  { seen := s.seen.drop (s.seen.length - 20000)
    trades := s.trades.drop (s.trades.length - 2000)
    lastScannedBlock := s.lastScannedBlock }

/-- Restart: `buildState` reading back the last persisted snapshot. -/
def reloadState (s : EngineState) : EngineState :=
  let p := persistState s
  { seen := p.seen, trades := p.trades, lastScannedBlock := p.lastScannedBlock }

/-- Result of `isTradeAllowedByRate`, with the two deny reasons. -/
inductive GateResult where
  | ok
  | denyRate
  | denyCooldown
deriving DecidableEq, Repr

/-- `isTradeAllowedByRate(state, {maxTradesPerHour, cooldownSec})`. -/
def isTradeAllowedByRate (trades : List Trade) (nowMs : Int)
    (maxTradesPerHour : Nat) (cooldownSec : Int) : GateResult :=
  if maxTradesPerHour ≤ (trades.filter (fun t => nowMs - 60 * 60 * 1000 ≤ t.tsMs)).length then
    GateResult.denyRate
  else
    match trades.getLast? with
    | some last => if nowMs - last.tsMs < cooldownSec * 1000 then GateResult.denyCooldown
                   else GateResult.ok
    | none => GateResult.ok

/-- Engine configuration (the environment-derived constants of `run`). -/
structure Config where
  watch : String
  watchTopic : String
  ignoreTokens : List String
  autoSellEnabled : Bool
  autoSellBps : Nat
  minSellTokenRaw : Nat
  maxTradesPerHour : Nat
  cooldownSeconds : Int
  dryRun : Bool
  tradeEthAmountWei : Nat
  maxBlockScanPerCycle : Int
  startLookbackBlocks : Int
deriving DecidableEq, Repr

/-- A 0x quote payload: the fields the bot reads.  `spender` collapses
`quote?.issues?.allowance?.spender || quote?.allowanceTarget ||
quote?.allowanceSpender`. -/
structure Quote where
  txTo : Option String
  txData : Option String
  txValue : Option Nat
  buyAmount : Option Nat
  spender : Option String
deriving DecidableEq, Repr

/-- Outcomes of the external calls made while handling one signal.
`none` for a read/quote means the call threw. -/
structure Env where
  nowMs : Int
  buyQuote : Option Quote
  balanceRead : Option Nat
  sellQuote : Option Quote
  allowanceRead : Option Nat
  approveOk : Bool
  refreshedQuote : Option Quote
  sendOk : Bool
  sentTx : String
deriving DecidableEq, Repr

/-- One receipt log entry, with `dataAmount` the result of
`BigInt(lg.data || '0x0')` (`none` = the conversion threw). -/
structure LogEntry where
  topics : List String
  transactionHash : Option String
  address : String
  dataAmount : Option Nat
deriving DecidableEq, Repr

/-- External side effects of one signal, recorded for the proofs. -/
inductive Action where
  | quoteRequest (sellToken buyToken : String) (sellAmount : Nat)
  | approveReq (token spender : String) (amount : Nat)
  | sendTx
deriving DecidableEq, Repr

/-- Result of processing one receipt log: new state, durable snapshots
written (in order), external actions, and — when the quote-and-execute
stage was reached — the signal's dedup key. -/
structure StepResult where
  state : EngineState
  persists : List PersistedState
  actions : List Action
  execOf : Option String
deriving DecidableEq, Repr

/-- The classifier: lines 722–745 of the bot up to (and including) the
auto-sell-disabled check, producing `(hash, token, side)` or dropping
the log. -/
def classify (cfg : Config) (txHash : String) (lg : LogEntry) :
    Option (String × String × Side) :=
  let topics := lg.topics.map normalizeAddr
  let rawHash := match lg.transactionHash with
    | some h => if h = "" then txHash else h
    | none => txHash
  let hash := normalizeAddr rawHash
  let token := normalizeAddr lg.address
  if hash = "" ∨ token = "" then none
  else if topics[0]? ≠ some (normalizeAddr TRANSFER_TOPIC) then none
  else
    let isBuySignal := topics[2]? = some cfg.watchTopic
    let isSellSignal := topics[1]? = some cfg.watchTopic
    if isBuySignal ∧ isSellSignal then none
    else if isBuySignal then some (hash, token, Side.buy)
    else if isSellSignal then
      if cfg.autoSellEnabled then some (hash, token, Side.sell) else none
    else none

/-- `ensureAllowance({publicClient, walletClient, account, token, spender,
requiredAmount})`: read the allowance; approve `maxUint256` when short. -/
inductive AllowanceOutcome where
  | err
  | noApproveNeeded
  | approved
deriving DecidableEq, Repr

/-- The allowance check and (if needed) unlimited approval of the sell path. -/
def ensureAllowance (e : Env) (token spender : String) (requiredAmount : Nat) :
    AllowanceOutcome × List Action :=
  match e.allowanceRead with
  | none => (AllowanceOutcome.err, [])
  | some allowance =>
    if requiredAmount ≤ allowance then (AllowanceOutcome.noApproveNeeded, [])
    else
      let acts := [Action.approveReq token spender maxUint256]
      if e.approveOk then (AllowanceOutcome.approved, acts) else (AllowanceOutcome.err, acts)

/-- The buy branch of the signal handler (lines 769–857). -/
def buyPath (cfg : Config) (e : Env) (txHash : String) (lg : LogEntry)
    (signalAmount : Nat) (key : String) (s : EngineState) : StepResult :=
  let acts := [Action.quoteRequest ETH_PLACEHOLDER lg.address cfg.tradeEthAmountWei]
  match e.buyQuote with
  | none => ⟨s, [], acts, some key⟩
  | some q =>
    match q.txTo, q.txData with
    | some txTo, some txData =>
      if txTo = "" ∨ txData = "" then ⟨s, [], acts, some key⟩
      else if cfg.dryRun then
        let t : Trade :=
          { tsMs := e.nowMs, side := Side.buy, dryRun := true, token := lg.address
            watchedHash := txHash, signalAmount := signalAmount
            sellTokenAmount := none, quoteBuyAmount := q.buyAmount, followerTx := none }
        let s2 : EngineState := { s with trades := s.trades ++ [t] }
        ⟨s2, [persistState s2], acts, some key⟩
      else if e.sendOk then
        let t : Trade :=
          { tsMs := e.nowMs, side := Side.buy, dryRun := false, token := lg.address
            watchedHash := txHash, signalAmount := signalAmount
            sellTokenAmount := none, quoteBuyAmount := none, followerTx := some e.sentTx }
        let s2 : EngineState := { s with trades := s.trades ++ [t] }
        ⟨s2, [persistState s2], acts ++ [Action.sendTx], some key⟩
      else ⟨s, [], acts ++ [Action.sendTx], some key⟩
    | _, _ => ⟨s, [], acts, some key⟩

/-- The tail of the live sell branch: validate the (possibly refreshed)
quote payload, submit, record the fill (lines 956–995). -/
def finishSellSend (e : Env) (txHash : String) (lg : LogEntry)
    (signalAmount followerSellAmount : Nat) (key : String) (q : Quote)
    (acts : List Action) (s : EngineState) : StepResult :=
  match q.txTo, q.txData with
  | some txTo, some txData =>
    if txTo = "" ∨ txData = "" then ⟨s, [], acts, some key⟩
    else if e.sendOk then
      let t : Trade :=
        { tsMs := e.nowMs, side := Side.sell, dryRun := false, token := lg.address
          watchedHash := txHash, signalAmount := signalAmount
          sellTokenAmount := some followerSellAmount, quoteBuyAmount := none
          followerTx := some e.sentTx }
      let s2 : EngineState := { s with trades := s.trades ++ [t] }
      ⟨s2, [persistState s2], acts ++ [Action.sendTx], some key⟩
    else ⟨s, [], acts ++ [Action.sendTx], some key⟩
  | _, _ => ⟨s, [], acts, some key⟩

/-- The sell branch of the signal handler (lines 859–995): live balance
read, bps sizing, dust floor, quote, allowance handling, submission. -/
def sellPath (cfg : Config) (e : Env) (txHash : String) (lg : LogEntry)
    (signalAmount : Nat) (key : String) (s : EngineState) : StepResult :=
  match e.balanceRead with
  | none => ⟨s, [], [], none⟩
  | some bal =>
    if bal = 0 then ⟨s, [], [], none⟩
    else
      let followerSellAmount := bal * cfg.autoSellBps / 10000
      if followerSellAmount < cfg.minSellTokenRaw then ⟨s, [], [], none⟩
      else
        let acts0 := [Action.quoteRequest lg.address ETH_PLACEHOLDER followerSellAmount]
        match e.sellQuote with
        | none => ⟨s, [], acts0, some key⟩
        | some q =>
          if cfg.dryRun then
            let t : Trade :=
              { tsMs := e.nowMs, side := Side.sell, dryRun := true, token := lg.address
                watchedHash := txHash, signalAmount := signalAmount
                sellTokenAmount := some followerSellAmount, quoteBuyAmount := q.buyAmount
                followerTx := none }
            let s2 : EngineState := { s with trades := s.trades ++ [t] }
            ⟨s2, [persistState s2], acts0, some key⟩
          else
            match q.spender with
            | some spender =>
              if isHexAddress spender then
                match ensureAllowance e lg.address spender followerSellAmount with
                | (AllowanceOutcome.err, aActs) => ⟨s, [], acts0 ++ aActs, some key⟩
                | (AllowanceOutcome.noApproveNeeded, aActs) =>
                  finishSellSend e txHash lg signalAmount followerSellAmount key q
                    (acts0 ++ aActs) s
                | (AllowanceOutcome.approved, aActs) =>
                  let acts1 := acts0 ++ aActs ++
                    [Action.quoteRequest lg.address ETH_PLACEHOLDER followerSellAmount]
                  match e.refreshedQuote with
                  | none => ⟨s, [], acts1, some key⟩
                  | some q2 =>
                    finishSellSend e txHash lg signalAmount followerSellAmount key q2 acts1 s
              else finishSellSend e txHash lg signalAmount followerSellAmount key q acts0 s
            | none => finishSellSend e txHash lg signalAmount followerSellAmount key q acts0 s

/-- Processing of one receipt log (lines 722–996): classify, dedup,
ignore-list, amount, rate gate, then the side branch. -/
def processLog (cfg : Config) (txHash : String) (e : Env) (lg : LogEntry)
    (s : EngineState) : StepResult :=
  match classify cfg txHash lg with
  | none => ⟨s, [], [], none⟩
  | some (hash, token, side) =>
    let key := dedupKey hash token side
    if key ∈ s.seen then ⟨s, [], [], none⟩
    else
      let s1 : EngineState := { s with seen := s.seen ++ [key] }
      if token ∈ cfg.ignoreTokens then ⟨s1, [], [], none⟩
      else
        match lg.dataAmount with
        | none => ⟨s1, [], [], none⟩
        | some signalAmount =>
          if signalAmount = 0 then ⟨s1, [], [], none⟩
          else
            match isTradeAllowedByRate s1.trades e.nowMs cfg.maxTradesPerHour
                cfg.cooldownSeconds with
            | GateResult.denyRate => ⟨s1, [], [], none⟩
            | GateResult.denyCooldown => ⟨s1, [], [], none⟩
            | GateResult.ok =>
              match side with
              | Side.buy => buyPath cfg e txHash lg signalAmount key s1
              | Side.sell => sellPath cfg e txHash lg signalAmount key s1

/-- Accumulated output of a run: final state plus the ordered durable
write history, external actions, and the dedup keys of the signals that
reached the quote-and-execute stage. -/
structure RunOut where
  state : EngineState
  persists : List PersistedState
  actions : List Action
  execs : List String
deriving DecidableEq, Repr

/-- Fold one receipt log into the accumulated run output. -/
def stepRun (cfg : Config) (txHash : String) (acc : RunOut) (le : LogEntry × Env) :
    RunOut :=
  let r := processLog cfg txHash le.2 le.1 acc.state
  { state := r.state, persists := acc.persists ++ r.persists
    actions := acc.actions ++ r.actions, execs := acc.execs ++ r.execOf.toList }

/-- Receipt of a watched transaction: status and logs (each log carries the
environment of its external calls). -/
structure Receipt where
  statusOk : Bool
  logs : List (LogEntry × Env)

/-- A block transaction as the scanner sees it (`none` receipt = the receipt
fetch threw; `isString` models `typeof tx === 'string'`). -/
structure TxItem where
  isString : Bool
  fromAddr : String
  hash : Option String
  receipt : Option Receipt

/-- The per-transaction filters of the scan loop (lines 708–721). -/
def processTx (cfg : Config) (tx : TxItem) (acc : RunOut) : RunOut :=
  if tx.isString then acc
  else if normalizeAddr tx.fromAddr ≠ cfg.watch then acc
  else
    match tx.hash with
    | none => acc
    | some h =>
      if h = "" then acc
      else
        match tx.receipt with
        | none => acc
        | some rcpt =>
          if rcpt.statusOk then rcpt.logs.foldl (stepRun cfg h) acc else acc

/-- Fold all transactions of a block. -/
def processBlockTxs (cfg : Config) (txs : List TxItem) (acc : RunOut) : RunOut :=
  txs.foldl (fun a t => processTx cfg t a) acc

/-- Processing of one successfully fetched block at height `b`, ending with
`state.lastScannedBlock = b; persistState(...)` (lines 999–1000). -/
def processBlockAtHeight (cfg : Config) (b : Int) (txs : List TxItem)
    (s : EngineState) : RunOut :=
  let r := processBlockTxs cfg txs ⟨s, [], [], []⟩
  let s2 : EngineState := { r.state with lastScannedBlock := some b }
  { r with state := s2, persists := r.persists ++ [persistState s2] }

/-- `fromBlock` of one scan cycle (lines 684–689). -/
def cycleFromBlock (cfg : Config) (lastScanned : Option Int) (latest : Int) : Int :=
  match lastScanned with
  | none => max 0 (latest - cfg.startLookbackBlocks)
  | some c => c + 1

/-- The closed integer range `[a, b]` as a list. -/
def intRangeClosed (a b : Int) : List Int :=
  (List.range (b + 1 - a).toNat).map (fun (i : Nat) => a + (i : Int))

/-- The block heights one scan cycle iterates over (lines 691–694). -/
def cycleBlockList (cfg : Config) (lastScanned : Option Int) (latest : Int) :
    List Int :=
  let fromBlock := cycleFromBlock cfg lastScanned latest
  if fromBlock ≤ latest then
    intRangeClosed fromBlock (min latest (fromBlock + cfg.maxBlockScanPerCycle - 1))
  else []

/-- One iteration of the scan loop body: fetch the block; a failed fetch
(`none`) is skipped with `continue` (lines 694–705). -/
def cycleStep (cfg : Config) (fetch : Int → Option (List TxItem)) (acc : RunOut)
    (b : Int) : RunOut :=
  match fetch b with
  | none => acc
  | some txs =>
    let r := processBlockAtHeight cfg b txs acc.state
    { state := r.state, persists := acc.persists ++ r.persists
      actions := acc.actions ++ r.actions, execs := acc.execs ++ r.execs }

/-- One scan cycle: iterate the block range (lines 691–1001). -/
def processCycle (cfg : Config) (latest : Int) (fetch : Int → Option (List TxItem))
    (s : EngineState) : RunOut :=
  (cycleBlockList cfg s.lastScannedBlock latest).foldl (cycleStep cfg fetch)
    ⟨s, [], [], []⟩

/-- A chain reader on which fetching block 1 fails and every other block is
an empty block. -/
def fetchFail1 : Int → Option (List TxItem) :=
  fun b => if b = 1 then none else some []

/-- A chain reader on which every block fetch fails. -/
def fetchNone : Int → Option (List TxItem) := fun _ => none

/-- A trace event: process one classified-candidate receipt log, or restart
the process (reload the persisted, trimmed state). -/
inductive TraceEv where
  | sig (txHash : String) (e : Env) (lg : LogEntry)
  | restart
deriving DecidableEq, Repr

/-- Apply one trace event. -/
def applyEv (cfg : Config) (acc : RunOut) : TraceEv → RunOut
  | TraceEv.sig txHash e lg => stepRun cfg txHash acc (lg, e)
  | TraceEv.restart =>
    { acc with state := reloadState acc.state
               persists := acc.persists ++ [persistState acc.state] }

/-- Run a whole trace of signal events and restarts. -/
def runTrace (cfg : Config) (s : EngineState) (evs : List TraceEv) : RunOut :=
  evs.foldl (applyEv cfg) ⟨s, [], [], []⟩

/-- A receipt Transfer log with the given indexed topics. -/
def mkTransferLog (txh fromTopic toTopic token : String) (amount : Nat) : LogEntry :=
  { topics := [TRANSFER_TOPIC, fromTopic, toTopic], transactionHash := some txh
    address := token, dataAmount := some amount }

/-- An environment in which every external call fails (its outcome is never
consulted on paths that drop a signal early). -/
def envDummy : Env :=
  { nowMs := 0, buyQuote := none, balanceRead := none, sellQuote := none
    allowanceRead := none, approveOk := false, refreshedQuote := none
    sendOk := false, sentTx := "" }

/-- A small concrete configuration for witnesses: dry-run on, auto-sell on,
one ignored token. -/
def cfgA : Config :=
  { watch := "0xw", watchTopic := "0xwatch", ignoreTokens := ["tig"]
    autoSellEnabled := true, autoSellBps := 5000, minSellTokenRaw := 10
    maxTradesPerHour := 20, cooldownSeconds := 45, dryRun := true
    tradeEthAmountWei := 200000000000000, maxBlockScanPerCycle := 20
    startLookbackBlocks := 8 }

/-- `cfgA` with auto-sell mirroring disabled. -/
def cfgB : Config := { cfgA with autoSellEnabled := false }

/-- `cfgA` in live mode (dry-run off). -/
def cfgC : Config := { cfgA with dryRun := false }

/-- A concrete buy quote with a valid transaction payload. -/
def quoteX : Quote :=
  { txTo := some "0xto", txData := some "0xda", txValue := none
    buyAmount := some 5, spender := none }

/-- Environment of the first processing of the replayed buy signal
(time 0, quote available, dry-run takes no further calls). -/
def envX0 : Env := { envDummy with buyQuote := some quoteX }

/-- Environment of the second processing of the same signal, far later
(so cooldown and the rate window are clear). -/
def envX1 : Env := { envX0 with nowMs := 10000000000 }

/-- The replayed buy Transfer log. -/
def lgX : LogEntry := mkTransferLog "0xh0" "0xother" "0xwatch" "0xtok" 1

/-- The dedup identity of the replayed signal. -/
def key0X : String := dedupKey "0xh0" "0xtok" Side.buy

/-- The dry-run trade record the engine appends when executing `lgX`. -/
def execTrade (e : Env) : Trade :=
  { tsMs := e.nowMs, side := Side.buy, dryRun := true, token := "0xtok"
    watchedHash := "0xtxa", signalAmount := 1, sellTokenAmount := none
    quoteBuyAmount := quoteX.buyAmount, followerTx := none }

/-- The quote request issued when executing `lgX`. -/
def actX : Action := Action.quoteRequest ETH_PLACEHOLDER "0xtok" cfgA.tradeEthAmountWei

/-- Pairwise-distinct transaction hashes for the filler signals:
`'a'` repeated `i+1` times. -/
def fillerHash (i : Nat) : String := String.mk (List.replicate (i + 1) 'a')

/-- The dedup identity of the `i`-th filler signal (its token `tig` is in
`cfgA`'s ignore list, so a filler only occupies a seen-set slot). -/
def fillerKey (i : Nat) : String := dedupKey (fillerHash i) "tig" Side.buy

/-- The `i`-th filler signal event. -/
def fillerEv (i : Nat) : TraceEv :=
  TraceEv.sig "txf" envDummy (mkTransferLog (fillerHash i) "0xother" "0xwatch" "tig" 1)

/-- The 20000 filler identities that evict `key0X` from the persisted
seen set. -/
def fillerKeys : List String := (List.range 20000).map fillerKey

/-- First processing of the replayed signal. -/
def ev0X : TraceEv := TraceEv.sig "0xtxa" envX0 lgX

/-- Re-scan of the same signal after the restart. -/
def ev1X : TraceEv := TraceEv.sig "0xtxa" envX1 lgX

/-- The eviction trace: execute the signal once, record 20000 other
identities, restart (reloading the trimmed persisted state), then re-scan
the same signal. -/
def evsX : List TraceEv :=
  ev0X :: ((List.range 20000).map fillerEv ++ [TraceEv.restart, ev1X])

/-- Engine state after the first execution of `lgX`. -/
def stateA : EngineState :=
  { seen := [key0X], trades := [execTrade envX0], lastScannedBlock := none }

/-- Engine state after the 20000 filler signals. -/
def stateB : EngineState :=
  { seen := key0X :: fillerKeys, trades := [execTrade envX0], lastScannedBlock := none }

/-- Engine state after the restart: the persisted seen set kept only its
last 20000 entries, so `key0X` is gone. -/
def stateC : EngineState :=
  { seen := fillerKeys, trades := [execTrade envX0], lastScannedBlock := none }

/-- Engine state at the end of the eviction trace: the replayed identity
has been executed (and recorded) a second time. -/
def stateD : EngineState :=
  { seen := fillerKeys ++ [key0X]
    trades := [execTrade envX0, execTrade envX1], lastScannedBlock := none }

/-- Run output after the first execution of `lgX`. -/
def accA : RunOut := ⟨stateA, [persistState stateA], [actX], [key0X]⟩

/-- Run output after the 20000 filler signals. -/
def accB : RunOut := ⟨stateB, [persistState stateA], [actX], [key0X]⟩

/-- Run output after the restart. -/
def accC : RunOut :=
  ⟨stateC, [persistState stateA, persistState stateB], [actX], [key0X]⟩

/-- Run output after the second execution of the same identity. -/
def accD : RunOut :=
  ⟨stateD, [persistState stateA, persistState stateB, persistState stateD],
    [actX, actX], [key0X, key0X]⟩

/-- A concrete sell quote whose allowance issue names a valid spender. -/
def quoteW : Quote :=
  { txTo := some "0xto", txData := some "0xda", txValue := none, buyAmount := none
    spender := some "0x2acac49b7920d80c3c329e30ca93d0c4b4849ec6" }

/-- A concrete live-sell environment: balance 100, allowance 0. -/
def envW : Env :=
  { envDummy with
    balanceRead := some 100
    allowanceRead := some 0
    sellQuote := some quoteW }

/-- Modelled from the spec: the per-token `Position` aggregate of §3 / §4.5.
The position-updating `recordTrade` code is not under `src/` (only its
reader, the logs route, and the persisted-state schema are), so the
average-cost-basis accounting is modelled from the spec's words; quantities
are raw token units and Wei (integers), the proportional cost share is
rounded down. -/
structure Position where
  boughtRaw : Nat
  soldRaw : Nat
  qtyOpenRaw : Nat
  costOpenWei : Nat
  totalBuyEthWei : Nat
  totalSellEthWei : Nat
  realizedPnlWei : Int
  tradesBuy : Nat
  tradesSell : Nat
deriving DecidableEq, Repr

/-- Modelled from the spec: the empty position created on a token's first
trade (§3: "Created on first trade for a token"). -/
def emptyPosition : Position :=
  { boughtRaw := 0, soldRaw := 0, qtyOpenRaw := 0, costOpenWei := 0
    totalBuyEthWei := 0, totalSellEthWei := 0, realizedPnlWei := 0
    tradesBuy := 0, tradesSell := 0 }

/-- Modelled from the spec (§4.5): "on a buy fill, open quantity and open
cost both increase by the fill's quantity and currency spent". -/
def applyBuyFill (p : Position) (qty costWei : Nat) : Position :=
  { p with boughtRaw := p.boughtRaw + qty
           qtyOpenRaw := p.qtyOpenRaw + qty
           costOpenWei := p.costOpenWei + costWei
           totalBuyEthWei := p.totalBuyEthWei + costWei
           tradesBuy := p.tradesBuy + 1 }

/-- Modelled from the spec (§4.5): "on a sell fill, realized PnL accrues as
(sell proceeds) − (proportional share of open cost corresponding to the
sold quantity), open quantity and open cost decrease proportionally, and
cumulative spent/received totals accumulate". -/
def applySellFill (p : Position) (qty proceedsWei : Nat) : Position :=
  let costShare := p.costOpenWei * qty / p.qtyOpenRaw
  { p with soldRaw := p.soldRaw + qty
           qtyOpenRaw := p.qtyOpenRaw - qty
           costOpenWei := p.costOpenWei - costShare
           totalSellEthWei := p.totalSellEthWei + proceedsWei
           realizedPnlWei := p.realizedPnlWei + (proceedsWei : Int) - (costShare : Int)
           tradesSell := p.tradesSell + 1 }

/-- Fold a sequence of buy fills into a position. -/
def applyBuyFills (p : Position) (fills : List (Nat × Nat)) : Position :=
  fills.foldl (fun q f => applyBuyFill q f.1 f.2) p

/-- Invariants of one log-processing step relative to its starting state:
the scan cursor is untouched, `seen` and `trades` only grow by appending,
every appended trade is contained in one of the step's durable writes, and
every durable write carries the starting cursor. -/
def StepExtends (s : EngineState) (r : StepResult) : Prop :=
  r.state.lastScannedBlock = s.lastScannedBlock ∧
  (∃ ds, r.state.seen = s.seen ++ ds) ∧
  (∃ dt, r.state.trades = s.trades ++ dt ∧ ∀ t ∈ dt, ∃ w ∈ r.persists, t ∈ w.trades) ∧
  (∀ w ∈ r.persists, w.lastScannedBlock = s.lastScannedBlock)

/-- The same invariants for an accumulated run segment. -/
def RunExtends (s : EngineState) (r : RunOut) : Prop :=
  r.state.lastScannedBlock = s.lastScannedBlock ∧
  (∃ ds, r.state.seen = s.seen ++ ds) ∧
  (∃ dt, r.state.trades = s.trades ++ dt ∧ ∀ t ∈ dt, ∃ w ∈ r.persists, t ∈ w.trades) ∧
  (∀ w ∈ r.persists, w.lastScannedBlock = s.lastScannedBlock)

/-- Invariants of the armed-signal branches (`buyPath`, `sellPath`,
`finishSellSend`): `seen` and the cursor are untouched, at most one trade
is appended and is persisted in the same step, and the step is attributed
to the signal's dedup key when it reached the execution stage. -/
def BranchOk (key : String) (s : EngineState) (r : StepResult) : Prop :=
  r.state.seen = s.seen ∧
  r.state.lastScannedBlock = s.lastScannedBlock ∧
  (∃ dt, r.state.trades = s.trades ++ dt ∧ ∀ t ∈ dt, ∃ w ∈ r.persists, t ∈ w.trades) ∧
  (∀ w ∈ r.persists, w.lastScannedBlock = s.lastScannedBlock) ∧
  (r.execOf = none ∨ r.execOf = some key)

end Clawnch

namespace Clawnch

/-! ### Generic helpers -/

lemma mem_drop_append_last {α : Type} (l : List α) (t : α) (n : Nat) (hn : 0 < n) :
    t ∈ (l ++ [t]).drop ((l ++ [t]).length - n) := by
  have hlen : (l ++ [t]).length = l.length + 1 := by simp
  have hk : (l ++ [t]).length - n ≤ l.length := by omega
  rw [List.drop_append_eq_append_drop]
  have : (l ++ [t]).length - n - l.length = 0 := by omega
  rw [this]
  simp

lemma mem_intRangeClosed {a b x : Int} : x ∈ intRangeClosed a b ↔ a ≤ x ∧ x ≤ b := by
  unfold intRangeClosed
  rw [List.mem_map]
  constructor
  · rintro ⟨i, hi, rfl⟩
    rw [List.mem_range] at hi
    omega
  · rintro ⟨h1, h2⟩
    exact ⟨(x - a).toNat, by rw [List.mem_range]; omega, by omega⟩

lemma normalizeAddr_transfer : normalizeAddr TRANSFER_TOPIC = TRANSFER_TOPIC := by decide

/-! ### The rate gate (C7) -/

/-- C7: the Guardrail Gate's rate check denies a signal exactly when the
number of trade records whose timestamps lie in the trailing 60 minutes
(`t.tsMs ≥ now − 60·60·1000`) is at or above the configured hourly cap;
as soon as the oldest counted trade falls outside the window (so the count
drops below the cap) the rate check no longer denies. -/
theorem c7_rate_gate (trades : List Trade) (nowMs : Int) (cap : Nat)
    (cooldownSec : Int) :
    isTradeAllowedByRate trades nowMs cap cooldownSec = GateResult.denyRate ↔
      cap ≤ (trades.filter (fun t => nowMs - 60 * 60 * 1000 ≤ t.tsMs)).length := by
  unfold isTradeAllowedByRate
  split
  · next hcap => exact ⟨fun _ => hcap, fun _ => rfl⟩
  · next hcap =>
    constructor
    · intro h
      exfalso
      split at h
      · split at h
        · exact GateResult.noConfusion h
        · exact GateResult.noConfusion h
      · exact GateResult.noConfusion h
    · intro hc; exact absurd hc hcap

/-! ### The cycle block range (C8) -/

lemma mem_cycleBlockList {cfg : Config} {c latest b : Int} :
    b ∈ cycleBlockList cfg (some c) latest ↔
      c + 1 ≤ b ∧ b ≤ min latest (c + cfg.maxBlockScanPerCycle) := by
  simp only [cycleBlockList, cycleFromBlock]
  split
  · rw [mem_intRangeClosed]
    constructor <;> rintro ⟨h1, h2⟩ <;>
      refine ⟨h1, ?_⟩ <;> simp only [le_min_iff] at * <;> omega
  · simp only [List.not_mem_nil, false_iff, not_and, not_le, le_min_iff]
    intro h1 h2
    omega

/-- C8: given a non-null cursor `c` and chain height `latest`, one scan
cycle iterates exactly over the closed block range from `c+1` up to
`min(latest, c + maxBlockScanPerCycle)`, and over no block outside it. -/
theorem c8_cycle_range (cfg : Config) (c latest b : Int) :
    b ∈ cycleBlockList cfg (some c) latest ↔
      c + 1 ≤ b ∧ b ≤ min latest (c + cfg.maxBlockScanPerCycle) :=
  mem_cycleBlockList

/-! ### Average-cost PnL accounting (C2, modelled from the spec) -/

lemma applyBuyFills_pnl (fills : List (Nat × Nat)) (p : Position) :
    (applyBuyFills p fills).realizedPnlWei = p.realizedPnlWei := by
  induction fills generalizing p with
  | nil => rfl
  | cons f fs ih => simpa [applyBuyFills, List.foldl_cons, applyBuyFill] using ih _

/-- C2: after any sequence of buy fills (from the fresh position) followed
by a sell fill of quantity `q ≤ qtyOpen`, realized PnL increases by exactly
the sell proceeds minus the proportional share `q·costOpen/qtyOpen`
(rounded down) of the open cost evaluated immediately before the sell; the
open quantity and open cost decrease by `q` resp. that share; and realized
PnL is changed by no operation other than a sell fill (a buy fill leaves it
unchanged, so it is still `0` after the buys). -/
theorem c2_realized_pnl_avg_cost (fills : List (Nat × Nat)) (q proceeds : Nat)
    (hq : q ≤ (applyBuyFills emptyPosition fills).qtyOpenRaw) :
    (applySellFill (applyBuyFills emptyPosition fills) q proceeds).realizedPnlWei =
        (applyBuyFills emptyPosition fills).realizedPnlWei + (proceeds : Int) -
          (((applyBuyFills emptyPosition fills).costOpenWei * q /
            (applyBuyFills emptyPosition fills).qtyOpenRaw : Nat) : Int) ∧
      (applySellFill (applyBuyFills emptyPosition fills) q proceeds).qtyOpenRaw =
        (applyBuyFills emptyPosition fills).qtyOpenRaw - q ∧
      (applySellFill (applyBuyFills emptyPosition fills) q proceeds).costOpenWei =
        (applyBuyFills emptyPosition fills).costOpenWei -
          (applyBuyFills emptyPosition fills).costOpenWei * q /
            (applyBuyFills emptyPosition fills).qtyOpenRaw ∧
      (applyBuyFills emptyPosition fills).realizedPnlWei = 0 ∧
      ∀ (p : Position) (qty c : Nat),
        (applyBuyFill p qty c).realizedPnlWei = p.realizedPnlWei := by
  refine ⟨rfl, rfl, rfl, ?_, fun p qty c => rfl⟩
  simpa [emptyPosition] using applyBuyFills_pnl fills emptyPosition

/-- Witness for C2 at a concrete input: two buys (100 units for 10 Wei,
300 units for 30 Wei), then selling 200 of the 400 open units for 25 Wei
realizes `25 − 200·40/400 = 5` Wei. -/
theorem c2_witness :
    (2 : Nat) * 100 ≤ (applyBuyFills emptyPosition [(100, 10), (300, 30)]).qtyOpenRaw ∧
      (applySellFill (applyBuyFills emptyPosition [(100, 10), (300, 30)]) 200 25).realizedPnlWei =
        (applyBuyFills emptyPosition [(100, 10), (300, 30)]).realizedPnlWei + (25 : Int) -
          (((applyBuyFills emptyPosition [(100, 10), (300, 30)]).costOpenWei * 200 /
            (applyBuyFills emptyPosition [(100, 10), (300, 30)]).qtyOpenRaw : Nat) : Int) := by
  refine ⟨by decide, ?_⟩
  exact (c2_realized_pnl_avg_cost [(100, 10), (300, 30)] 200 25 (by decide)).1

end Clawnch

namespace Clawnch

/-! ### Step invariants of the armed-signal branches -/

lemma branchOk_drop (key : String) (s : EngineState) (acts : List Action) :
    BranchOk key s ⟨s, [], acts, none⟩ :=
  ⟨rfl, rfl, ⟨[], by simp, by simp⟩, by simp, Or.inl rfl⟩

lemma branchOk_skip (key : String) (s : EngineState) (acts : List Action) :
    BranchOk key s ⟨s, [], acts, some key⟩ :=
  ⟨rfl, rfl, ⟨[], by simp, by simp⟩, by simp, Or.inr rfl⟩

lemma branchOk_push (key : String) (s : EngineState) (t : Trade) (acts : List Action) :
    BranchOk key s ⟨{ s with trades := s.trades ++ [t] },
      [persistState { s with trades := s.trades ++ [t] }], acts, some key⟩ := by
  refine ⟨rfl, rfl, ⟨[t], rfl, ?_⟩, ?_, Or.inr rfl⟩
  · intro x hx
    rw [List.mem_singleton] at hx
    cases hx
    refine ⟨persistState { s with trades := s.trades ++ [t] }, by simp, ?_⟩
    simp only [persistState]
    exact mem_drop_append_last s.trades t 2000 (by norm_num)
  · intro w hw
    rw [List.mem_singleton] at hw
    subst hw
    rfl

lemma finishSellSend_ok (e : Env) (txHash : String) (lg : LogEntry)
    (sa fsa : Nat) (key : String) (q : Quote) (acts : List Action) (s : EngineState) :
    BranchOk key s (finishSellSend e txHash lg sa fsa key q acts s) := by
  unfold finishSellSend
  split
  · split
    · exact branchOk_skip _ _ _
    · split
      · exact branchOk_push _ _ _ _
      · exact branchOk_skip _ _ _
  · exact branchOk_skip _ _ _

lemma buyPath_ok (cfg : Config) (e : Env) (txHash : String) (lg : LogEntry)
    (sa : Nat) (key : String) (s : EngineState) :
    BranchOk key s (buyPath cfg e txHash lg sa key s) := by
  unfold buyPath
  split
  · exact branchOk_skip _ _ _
  · split
    · split
      · exact branchOk_skip _ _ _
      · split
        · exact branchOk_push _ _ _ _
        · split
          · exact branchOk_push _ _ _ _
          · exact branchOk_skip _ _ _
    · exact branchOk_skip _ _ _

lemma sellPath_ok (cfg : Config) (e : Env) (txHash : String) (lg : LogEntry)
    (sa : Nat) (key : String) (s : EngineState) :
    BranchOk key s (sellPath cfg e txHash lg sa key s) := by
  unfold sellPath
  simp only []
  split
  · exact branchOk_drop _ _ _
  · split
    · exact branchOk_drop _ _ _
    · split
      · exact branchOk_drop _ _ _
      · split
        · exact branchOk_skip _ _ _
        · split
          · exact branchOk_push _ _ _ _
          · split
            · split
              · split
                · exact branchOk_skip _ _ _
                · exact finishSellSend_ok _ _ _ _ _ _ _ _ _
                · split
                  · exact branchOk_skip _ _ _
                  · exact finishSellSend_ok _ _ _ _ _ _ _ _ _
              · exact finishSellSend_ok _ _ _ _ _ _ _ _ _
            · exact finishSellSend_ok _ _ _ _ _ _ _ _ _

end Clawnch

namespace Clawnch

/-! ### Characterization of one log-processing step -/

lemma processLog_char (cfg : Config) (txHash : String) (e : Env) (lg : LogEntry)
    (s : EngineState) :
    processLog cfg txHash e lg s = ⟨s, [], [], none⟩ ∨
    ∃ hash token side,
      classify cfg txHash lg = some (hash, token, side) ∧
      dedupKey hash token side ∉ s.seen ∧
      BranchOk (dedupKey hash token side)
        { s with seen := s.seen ++ [dedupKey hash token side] }
        (processLog cfg txHash e lg s) := by
  unfold processLog
  simp only []
  split
  · exact Or.inl rfl
  · next hash token side heq =>
    split
    · exact Or.inl rfl
    · next hk =>
      refine Or.inr ⟨hash, token, side, heq, hk, ?_⟩
      split
      · exact branchOk_drop _ _ _
      · split
        · exact branchOk_drop _ _ _
        · split
          · exact branchOk_drop _ _ _
          · split
            · exact branchOk_drop _ _ _
            · exact branchOk_drop _ _ _
            · split
              · exact buyPath_ok _ _ _ _ _ _ _
              · exact sellPath_ok _ _ _ _ _ _ _

end Clawnch

namespace Clawnch

lemma stepExtends_of_branch {key : String} {s : EngineState} {r : StepResult}
    (hb : BranchOk key { s with seen := s.seen ++ [key] } r) : StepExtends s r := by
  obtain ⟨b1, b2, ⟨dt, bd1, bd2⟩, b4, _⟩ := hb
  exact ⟨b2, ⟨[key], b1⟩, ⟨dt, bd1, bd2⟩, b4⟩

lemma processLog_extends (cfg : Config) (txHash : String) (e : Env) (lg : LogEntry)
    (s : EngineState) : StepExtends s (processLog cfg txHash e lg s) := by
  rcases processLog_char cfg txHash e lg s with h | ⟨hash, token, side, _, _, hb⟩
  · rw [h]
    exact ⟨rfl, ⟨[], by simp⟩, ⟨[], by simp, by simp⟩, by simp⟩
  · exact stepExtends_of_branch hb

lemma processLog_execOf (cfg : Config) (txHash : String) (e : Env) (lg : LogEntry)
    (s : EngineState) (k : String)
    (h : (processLog cfg txHash e lg s).execOf = some k) :
    k ∉ s.seen ∧ (processLog cfg txHash e lg s).state.seen = s.seen ++ [k] := by
  rcases processLog_char cfg txHash e lg s with hc | ⟨hash, token, side, _, hk, hb⟩
  · rw [hc] at h
    exact absurd h (by simp)
  · obtain ⟨b1, _, _, _, b5⟩ := hb
    rcases b5 with b5 | b5
    · rw [b5] at h
      exact absurd h (by simp)
    · rw [b5] at h
      injection h with h
      subst h
      exact ⟨hk, b1⟩

lemma processLog_seen_mono (cfg : Config) (txHash : String) (e : Env) (lg : LogEntry)
    (s : EngineState) (k : String) (h : k ∈ s.seen) :
    k ∈ (processLog cfg txHash e lg s).state.seen := by
  obtain ⟨_, ⟨ds, hs⟩, _, _⟩ := processLog_extends cfg txHash e lg s
  rw [hs]
  exact List.mem_append_left _ h

/-! ### Run-level composition -/

lemma runExtends_init (s : EngineState) : RunExtends s ⟨s, [], [], []⟩ :=
  ⟨rfl, ⟨[], by simp⟩, ⟨[], by simp, by simp⟩, by simp⟩

lemma runExtends_stepRun (cfg : Config) (txHash : String) (le : LogEntry × Env)
    {s : EngineState} {acc : RunOut} (h : RunExtends s acc) :
    RunExtends s (stepRun cfg txHash acc le) := by
  obtain ⟨a1, ⟨dsa, a2⟩, ⟨dta, a3, a4⟩, a5⟩ := h
  obtain ⟨b1, ⟨dsb, b2⟩, ⟨dtb, b3, b4⟩, b5⟩ :=
    processLog_extends cfg txHash le.2 le.1 acc.state
  refine ⟨?_, ⟨dsa ++ dsb, ?_⟩, ⟨dta ++ dtb, ?_, ?_⟩, ?_⟩
  · show (processLog cfg txHash le.2 le.1 acc.state).state.lastScannedBlock = _
    rw [b1, a1]
  · show (processLog cfg txHash le.2 le.1 acc.state).state.seen = _
    rw [b2, a2, List.append_assoc]
  · show (processLog cfg txHash le.2 le.1 acc.state).state.trades = _
    rw [b3, a3, List.append_assoc]
  · intro t ht
    rcases List.mem_append.mp ht with ht | ht
    · obtain ⟨w, hw, hwt⟩ := a4 t ht
      exact ⟨w, List.mem_append_left _ hw, hwt⟩
    · obtain ⟨w, hw, hwt⟩ := b4 t ht
      exact ⟨w, List.mem_append_right _ hw, hwt⟩
  · intro w hw
    rcases List.mem_append.mp hw with hw | hw
    · exact a5 w hw
    · rw [b5 w hw, a1]

lemma runExtends_foldLogs (cfg : Config) (txHash : String)
    (logs : List (LogEntry × Env)) {s : EngineState} {acc : RunOut}
    (h : RunExtends s acc) : RunExtends s (logs.foldl (stepRun cfg txHash) acc) := by
  induction logs generalizing acc with
  | nil => exact h
  | cons le rest ih =>
    exact ih (runExtends_stepRun cfg txHash le h)

lemma runExtends_processTx (cfg : Config) (tx : TxItem) {s : EngineState}
    {acc : RunOut} (h : RunExtends s acc) : RunExtends s (processTx cfg tx acc) := by
  unfold processTx
  split
  · exact h
  · split
    · exact h
    · split
      · exact h
      · split
        · exact h
        · split
          · exact h
          · split
            · exact runExtends_foldLogs _ _ _ h
            · exact h

lemma runExtends_processBlockTxs (cfg : Config) (txs : List TxItem)
    {s : EngineState} {acc : RunOut} (h : RunExtends s acc) :
    RunExtends s (processBlockTxs cfg txs acc) := by
  induction txs generalizing acc with
  | nil => exact h
  | cons tx rest ih =>
    exact ih (runExtends_processTx cfg tx h)

/-! ### Durable write ordering (C5) -/

/-- C5: while a block is being processed, every durable write still carries
the old cursor; every trade record appended during the block is contained
in one of those pre-advance writes; and the single write that advances the
cursor to `b` is the last write of the block.  Hence no persisted snapshot
shows the cursor past a block whose recorded signals were not yet durably
written, and a crash between (atomic) writes leaves the store at the last
completed pre-advance snapshot. -/
theorem c5_durable_order (cfg : Config) (b : Int) (txs : List TxItem)
    (s : EngineState) :
    ∃ ws w dt,
      (processBlockAtHeight cfg b txs s).persists = ws ++ [w] ∧
      w.lastScannedBlock = some b ∧
      (∀ w2 ∈ ws, w2.lastScannedBlock = s.lastScannedBlock) ∧
      (processBlockAtHeight cfg b txs s).state.trades = s.trades ++ dt ∧
      (∀ t ∈ dt, ∃ w2 ∈ ws, t ∈ w2.trades) := by
  obtain ⟨h1, _, ⟨dt, h3, h4⟩, h5⟩ :=
    runExtends_processBlockTxs cfg txs (runExtends_init s)
  refine ⟨(processBlockTxs cfg txs ⟨s, [], [], []⟩).persists,
    persistState { (processBlockTxs cfg txs ⟨s, [], [], []⟩).state with
      lastScannedBlock := some b }, dt, rfl, rfl, h5, h3, h4⟩

end Clawnch

namespace Clawnch

/-! ### Classifier facts: self-transfers (C9) and disabled auto-sell (C4) -/

lemma classify_selfTransfer (cfg : Config) (txHash : String) (t0 w1 w2 : String)
    (hashOpt : Option String) (token : String) (amtOpt : Option Nat)
    (hw1 : normalizeAddr w1 = cfg.watchTopic) (hw2 : normalizeAddr w2 = cfg.watchTopic) :
    classify cfg txHash
      { topics := [t0, w1, w2], transactionHash := hashOpt, address := token
        dataAmount := amtOpt } = none := by
  unfold classify
  simp only [List.map_cons, List.map_nil, hw1, hw2]
  split
  · rfl
  · split
    · rfl
    · rw [if_pos]
      constructor <;> rfl

/-- C9: a Transfer log whose indexed `from` slot and indexed `to` slot both
match the watched address (a self-transfer) yields zero signals: the step
leaves the engine state untouched, writes nothing, performs no external
action, and never reaches the dedup/execution stages. -/
theorem c9_self_transfer (cfg : Config) (txHash : String) (e : Env)
    (s : EngineState) (t0 w1 w2 : String) (hashOpt : Option String)
    (token : String) (amtOpt : Option Nat)
    (hw1 : normalizeAddr w1 = cfg.watchTopic)
    (hw2 : normalizeAddr w2 = cfg.watchTopic) :
    processLog cfg txHash e
      { topics := [t0, w1, w2], transactionHash := hashOpt, address := token
        dataAmount := amtOpt } s = ⟨s, [], [], none⟩ := by
  have hcl := classify_selfTransfer cfg txHash t0 w1 w2 hashOpt token amtOpt hw1 hw2
  unfold processLog
  rw [hcl]

/-- Witness for C9 at a concrete self-transfer log. -/
theorem c9_witness :
    normalizeAddr "0xWatch" = cfgA.watchTopic ∧
      processLog cfgA "0xtxa" envDummy
        { topics := ["0xt0", "0xWatch", "0xWatch"], transactionHash := some "0xh9"
          address := "0xtok", dataAmount := some 7 } initialState =
        ⟨initialState, [], [], none⟩ :=
  ⟨by decide, c9_self_transfer cfgA "0xtxa" envDummy initialState "0xt0" "0xWatch"
    "0xWatch" (some "0xh9") "0xtok" (some 7) (by decide) (by decide)⟩

lemma classify_sell_disabled (cfg : Config) (txHash : String) (h ft tt tok : String)
    (amt : Nat) (hdis : cfg.autoSellEnabled = false)
    (hft : normalizeAddr ft = cfg.watchTopic)
    (htt : normalizeAddr tt ≠ cfg.watchTopic) :
    classify cfg txHash (mkTransferLog h ft tt tok amt) = none := by
  unfold classify mkTransferLog
  simp only [List.map_cons, List.map_nil, List.getElem?_cons_zero,
    List.getElem?_cons_succ, hft]
  split
  all_goals
    split
    · rfl
    · split
      · rfl
      · rw [if_neg (by rintro ⟨h2, -⟩; rw [Option.some.injEq] at h2; exact htt h2),
          if_neg (by simp [htt]), if_pos trivial, hdis]
        rfl

/-- C4 (amended): a classified sell signal arriving while auto-sell
mirroring is disabled is dropped before anything happens: no trade record,
no execution, no durable write — and its dedup identity is NOT added to the
seen set (the auto-sell check precedes the dedup recording), so the engine
state is left exactly unchanged. -/
theorem c4_disabled_sell_drop (cfg : Config) (txHash : String) (e : Env)
    (s : EngineState) (h ft tt tok : String) (amt : Nat)
    (hdis : cfg.autoSellEnabled = false)
    (hft : normalizeAddr ft = cfg.watchTopic)
    (htt : normalizeAddr tt ≠ cfg.watchTopic) :
    processLog cfg txHash e (mkTransferLog h ft tt tok amt) s = ⟨s, [], [], none⟩ := by
  have hcl := classify_sell_disabled cfg txHash h ft tt tok amt hdis hft htt
  unfold processLog
  rw [hcl]

/-- Counterexample for C4 as stated: with auto-sell disabled, a sell signal
(watched address in the `from` slot) is dropped, but its dedup identity is
NOT recorded in the seen set — the claim's "the signal's dedup identity is
still added to the DedupSet" fails on this concrete input. -/
theorem c4_counterexample :
    processLog cfgB "0xtxs" envDummy
        (mkTransferLog "0xh1" "0xwatch" "0xother" "0xtok" 5) initialState =
      ⟨initialState, [], [], none⟩ ∧
    dedupKey (normalizeAddr "0xh1") (normalizeAddr "0xtok") Side.sell ∉
      (processLog cfgB "0xtxs" envDummy
        (mkTransferLog "0xh1" "0xwatch" "0xother" "0xtok" 5) initialState).state.seen := by
  constructor
  · decide
  · decide

/-- Witness for C4's amended theorem at a concrete input. -/
theorem c4_witness :
    cfgB.autoSellEnabled = false ∧
      processLog cfgB "0xtxs" envDummy
        (mkTransferLog "0xh2" "0xWatch" "0xelse" "0xtok" 9) initialState =
      ⟨initialState, [], [], none⟩ :=
  ⟨by decide, c4_disabled_sell_drop cfgB "0xtxs" envDummy initialState "0xh2" "0xWatch"
    "0xelse" "0xtok" 9 (by decide) (by decide) (by decide)⟩

end Clawnch

namespace Clawnch

/-! ### Sell sizing (C6) and unlimited approval (C10) -/

lemma finishSellSend_actions_sup (e : Env) (txh : String) (lg : LogEntry)
    (sa fsa : Nat) (key : String) (q : Quote) (acts : List Action) (s : EngineState) :
    ∀ a ∈ acts, a ∈ (finishSellSend e txh lg sa fsa key q acts s).actions := by
  intro a ha
  unfold finishSellSend
  split
  · split
    · exact ha
    · split
      · exact List.mem_append_left _ ha
      · exact List.mem_append_left _ ha
  · exact ha

lemma finishSellSend_actions_indep (e : Env) (txh : String) (lg : LogEntry)
    (sa sa2 fsa : Nat) (key : String) (q : Quote) (acts : List Action) (s : EngineState) :
    (finishSellSend e txh lg sa fsa key q acts s).actions =
    (finishSellSend e txh lg sa2 fsa key q acts s).actions := by
  unfold finishSellSend
  split
  · split
    · rfl
    · split <;> rfl
  · rfl

/-- C6: on the armed sell path the engine sizes the order from the
follower's own live balance: a zero balance drops the signal with no
record, no write, and no external call; otherwise the sell quantity of the
quote request equals `⌊balance · autoSellBps / 10000⌋`; a quantity below
the dust floor `minSellTokenRaw` is likewise dropped; and the external
actions are entirely independent of the watched wallet's transferred
amount. -/
theorem c6_sell_sizing (cfg : Config) (e : Env) (txHash : String) (lg : LogEntry)
    (amt : Nat) (key : String) (s : EngineState) :
    (e.balanceRead = some 0 → sellPath cfg e txHash lg amt key s = ⟨s, [], [], none⟩) ∧
    (∀ bal, e.balanceRead = some bal → bal ≠ 0 →
      bal * cfg.autoSellBps / 10000 < cfg.minSellTokenRaw →
      sellPath cfg e txHash lg amt key s = ⟨s, [], [], none⟩) ∧
    (∀ bal, e.balanceRead = some bal → bal ≠ 0 →
      cfg.minSellTokenRaw ≤ bal * cfg.autoSellBps / 10000 →
      Action.quoteRequest lg.address ETH_PLACEHOLDER (bal * cfg.autoSellBps / 10000) ∈
        (sellPath cfg e txHash lg amt key s).actions) ∧
    (∀ amt2, (sellPath cfg e txHash lg amt key s).actions =
      (sellPath cfg e txHash lg amt2 key s).actions) := by
  obtain ⟨n, bq, br, sq, ar, ao, rq, so, st⟩ := e
  refine ⟨?_, ?_, ?_, ?_⟩
  · intro h
    simp only at h
    subst h
    rfl
  · intro bal h hne hlt
    simp only at h
    subst h
    unfold sellPath
    simp only []
    rw [if_neg hne, if_pos hlt]
  · intro bal h hne hge
    simp only at h
    subst h
    unfold sellPath
    simp only []
    rw [if_neg hne, if_neg (not_lt.mpr hge)]
    split
    · exact List.mem_singleton.mpr rfl
    · split
      · exact List.mem_singleton.mpr rfl
      · split
        · split
          · split
            · exact List.mem_append_left _ (List.mem_singleton.mpr rfl)
            · exact finishSellSend_actions_sup _ _ _ _ _ _ _ _ _ _
                (List.mem_append_left _ (List.mem_singleton.mpr rfl))
            · split
              · exact List.mem_append_left _
                  (List.mem_append_left _ (List.mem_singleton.mpr rfl))
              · exact finishSellSend_actions_sup _ _ _ _ _ _ _ _ _ _
                  (List.mem_append_left _
                    (List.mem_append_left _ (List.mem_singleton.mpr rfl)))
          · exact finishSellSend_actions_sup _ _ _ _ _ _ _ _ _ _
              (List.mem_singleton.mpr rfl)
        · exact finishSellSend_actions_sup _ _ _ _ _ _ _ _ _ _
            (List.mem_singleton.mpr rfl)
  · intro amt2
    unfold sellPath
    simp only []
    split
    · rfl
    · split
      · rfl
      · split
        · rfl
        · split
          · rfl
          · split
            · rfl
            · split
              · split
                · split
                  · rfl
                  · exact finishSellSend_actions_indep _ _ _ _ _ _ _ _ _ _
                  · split
                    · rfl
                    · exact finishSellSend_actions_indep _ _ _ _ _ _ _ _ _ _
                · exact finishSellSend_actions_indep _ _ _ _ _ _ _ _ _ _
              · exact finishSellSend_actions_indep _ _ _ _ _ _ _ _ _ _

/-- Witness for C6 at a concrete input: balance 100, 5000 bps, dust floor
10 → the sell quote asks for `100·5000/10000 = 50` raw units. -/
theorem c6_witness :
    Action.quoteRequest "0xtok" ETH_PLACEHOLDER (100 * cfgA.autoSellBps / 10000) ∈
      (sellPath cfgA { envDummy with balanceRead := some 100 } "0xtx"
        (mkTransferLog "0xh" "0xo" "0xw" "0xtok" 1) 1 "k" initialState).actions :=
  (c6_sell_sizing cfgA { envDummy with balanceRead := some 100 } "0xtx"
    (mkTransferLog "0xh" "0xo" "0xw" "0xtok" 1) 1 "k" initialState).2.2.1
    100 rfl (by decide) (by decide)

/-- C10: on the live sell path, when the quote names a valid spender and
the follower's current allowance is below the computed sell amount, the
approval submitted is for `maxUint256` (unlimited), and `ensureAllowance`
approves `maxUint256` whatever the required amount is — never the sell
amount itself. -/
theorem c10_approval_max (cfg : Config) (e : Env) (txHash : String) (lg : LogEntry)
    (amt : Nat) (key : String) (s : EngineState) (bal a : Nat) (q : Quote) (sp : String)
    (hdry : cfg.dryRun = false)
    (hbal : e.balanceRead = some bal) (hb0 : bal ≠ 0)
    (hmin : ¬ bal * cfg.autoSellBps / 10000 < cfg.minSellTokenRaw)
    (hq : e.sellQuote = some q) (hsp : q.spender = some sp)
    (hhex : isHexAddress sp = true)
    (ha : e.allowanceRead = some a) (hlt : a < bal * cfg.autoSellBps / 10000) :
    Action.approveReq lg.address sp maxUint256 ∈
      (sellPath cfg e txHash lg amt key s).actions ∧
    ∀ n, a < n →
      (ensureAllowance e lg.address sp n).2 =
        [Action.approveReq lg.address sp maxUint256] := by
  obtain ⟨nw, bq, br, sq, ar, ao, rq, so, st⟩ := e
  simp only at hbal hq ha
  subst hbal
  subst hq
  subst ha
  constructor
  · unfold sellPath
    simp only []
    rw [if_neg hb0, if_neg hmin, if_neg (by simp [hdry]), hsp]
    simp only []
    rw [if_pos hhex]
    unfold ensureAllowance
    simp only []
    rw [if_neg (not_le.mpr hlt)]
    cases ao
    · simp only [Bool.false_eq_true, if_false]
      exact List.mem_append_right _ (List.mem_singleton.mpr rfl)
    · simp only [if_true]
      cases rq
      · exact List.mem_append_left _
          (List.mem_append_right _ (List.mem_singleton.mpr rfl))
      · exact finishSellSend_actions_sup _ _ _ _ _ _ _ _ _ _
          (List.mem_append_left _
            (List.mem_append_right _ (List.mem_singleton.mpr rfl)))
  · intro n hn
    unfold ensureAllowance
    simp only []
    rw [if_neg (not_le.mpr hn)]
    cases ao <;> rfl

/-- Witness for C10 at a concrete input: live mode, balance 100 (sell
amount 50), allowance 0 → an unlimited approval for the quote's spender is
submitted. -/
theorem c10_witness :
    Action.approveReq "0xtok" "0x2acac49b7920d80c3c329e30ca93d0c4b4849ec6" maxUint256 ∈
      (sellPath cfgC envW "0xtx" (mkTransferLog "0xh" "0xo" "0xw" "0xtok" 1) 1 "k"
        initialState).actions ∧
    ∀ n, 0 < n →
      (ensureAllowance envW "0xtok" "0x2acac49b7920d80c3c329e30ca93d0c4b4849ec6" n).2 =
        [Action.approveReq "0xtok" "0x2acac49b7920d80c3c329e30ca93d0c4b4849ec6"
          maxUint256] :=
  c10_approval_max cfgC envW "0xtx" (mkTransferLog "0xh" "0xo" "0xw" "0xtok" 1) 1 "k"
    initialState 100 0 quoteW "0x2acac49b7920d80c3c329e30ca93d0c4b4849ec6"
    (by decide) (by decide) (by decide) (by decide) (by decide) (by decide)
    (by decide) (by decide) (by decide)

end Clawnch

namespace Clawnch

/-! ### Block-fetch failures and the scan cursor (C3) -/

lemma foldl_cycleStep_cursor (cfg : Config) (fetch : Int → Option (List TxItem))
    (l : List Int) (acc : RunOut) :
    (l.foldl (cycleStep cfg fetch) acc).state.lastScannedBlock =
        acc.state.lastScannedBlock ∨
      ∃ x ∈ l, fetch x ≠ none ∧
        (l.foldl (cycleStep cfg fetch) acc).state.lastScannedBlock = some x := by
  induction l generalizing acc with
  | nil => exact Or.inl rfl
  | cons b rest ih =>
    rw [List.foldl_cons]
    rcases hf : fetch b with _ | txs
    · have hstep : cycleStep cfg fetch acc b = acc := by
        unfold cycleStep
        rw [hf]
      rw [hstep]
      rcases ih acc with h | ⟨x, hx, hfx, hcur⟩
      · exact Or.inl h
      · exact Or.inr ⟨x, List.mem_cons_of_mem _ hx, hfx, hcur⟩
    · have hstep : (cycleStep cfg fetch acc b).state.lastScannedBlock = some b := by
        unfold cycleStep
        rw [hf]
        rfl
      rcases ih (cycleStep cfg fetch acc b) with h | ⟨x, hx, hfx, hcur⟩
      · refine Or.inr ⟨b, List.mem_cons_self _ _, ?_, ?_⟩
        · rw [hf]
          exact fun hc => Option.noConfusion hc
        · rw [h, hstep]
      · exact Or.inr ⟨x, List.mem_cons_of_mem _ hx, hfx, hcur⟩

/-- Counterexample for C3 as stated: with cursor 0, chain height 2, the
fetch of block 1 failing and block 2 succeeding, the end-of-cycle cursor is
2 — it HAS advanced past the failed block 1, which is therefore never
re-fetched. -/
theorem c3_counterexample :
    fetchFail1 1 = none ∧
      (1 : Int) ∈ cycleBlockList cfgA (some 0) 2 ∧
      (processCycle cfgA 2 fetchFail1
        { seen := [], trades := [], lastScannedBlock := some 0 }).state.lastScannedBlock =
        some 2 := by
  refine ⟨rfl, by decide, by decide⟩

/-- C3 (amended): a failed block fetch is skipped for the cycle without the
cursor being set at that iteration; consequently, when the failure happens
at `b` and no LATER block of the cycle's range succeeds, the end-of-cycle
cursor stays below `b` and block `b` falls inside the next cycle's range
(so it is retried).  (When a later block of the same range does succeed,
the cursor advances past `b` — see the counterexample.) -/
theorem c3_failed_block_cursor (cfg : Config) (latest : Int)
    (fetch : Int → Option (List TxItem)) (s : EngineState) (c b : Int)
    (hc : s.lastScannedBlock = some c)
    (hb : b ∈ cycleBlockList cfg (some c) latest)
    (hfail : ∀ x ∈ cycleBlockList cfg (some c) latest, b ≤ x → fetch x = none) :
    ∃ cend, (processCycle cfg latest fetch s).state.lastScannedBlock = some cend ∧
      cend < b ∧ ∀ latest2, b ≤ latest2 → b ∈ cycleBlockList cfg (some cend) latest2 := by
  have hbb := mem_cycleBlockList.mp hb
  have hb2 := hbb.2
  rw [le_min_iff] at hb2
  unfold processCycle
  rw [hc]
  rcases foldl_cycleStep_cursor cfg fetch (cycleBlockList cfg (some c) latest)
      ⟨s, [], [], []⟩ with h | ⟨x, hx, hfx, hcur⟩
  · refine ⟨c, ?_, by have := hbb.1; omega, ?_⟩
    · rw [h]
      exact hc
    · intro latest2 hl2
      rw [mem_cycleBlockList, le_min_iff]
      exact ⟨hbb.1, hl2, hb2.2⟩
  · have hxb : x < b := by
      by_contra hge
      push_neg at hge
      exact hfx (hfail x hx hge)
    have hxr := (mem_cycleBlockList.mp hx).1
    refine ⟨x, hcur, hxb, ?_⟩
    intro latest2 hl2
    rw [mem_cycleBlockList, le_min_iff]
    refine ⟨by omega, hl2, by omega⟩

/-- Witness for C3's amended theorem: every fetch fails, so the cursor
stays at 0 and block 1 is in the next cycle's range. -/
theorem c3_witness :
    ∃ cend, (processCycle cfgA 1 fetchNone
        { seen := [], trades := [], lastScannedBlock := some 0 }).state.lastScannedBlock =
        some cend ∧ cend < 1 ∧
      ∀ latest2, (1 : Int) ≤ latest2 → (1 : Int) ∈ cycleBlockList cfgA (some cend) latest2 :=
  c3_failed_block_cursor cfgA 1 fetchNone
    { seen := [], trades := [], lastScannedBlock := some 0 } 0 1 rfl (by decide)
    (fun x _ _ => rfl)

end Clawnch

namespace Clawnch

/-! ### Dedup at-most-once and seen-set eviction (C1) -/

lemma dedupKey_length (h t : String) (sd : Side) :
    (dedupKey h t sd).length = h.length + t.length + (sideStr sd).length + 2 := by
  simp only [dedupKey, String.length_append]
  have : (":" : String).length = 1 := rfl
  omega

lemma fillerHash_length (i : Nat) : (fillerHash i).length = i + 1 := by
  show (List.replicate (i + 1) 'a').length = i + 1
  exact List.length_replicate _ _

lemma fillerKey_length (i : Nat) : (fillerKey i).length = i + 9 := by
  rw [fillerKey, dedupKey_length, fillerHash_length]
  rfl

lemma fillerKey_inj : Function.Injective fillerKey := by
  intro i j hij
  have := congrArg String.length hij
  rw [fillerKey_length, fillerKey_length] at this
  omega

lemma fillerKeys_nodup : fillerKeys.Nodup :=
  (List.nodup_range 20000).map fillerKey_inj

lemma fillerKey_ne_key0X (i : Nat) : fillerKey i ≠ key0X := by
  intro h
  have hl := congrArg String.length h
  rw [fillerKey_length] at hl
  have hk : key0X.length = 14 := rfl
  rw [hk] at hl
  have : i = 5 := by omega
  subst this
  exact absurd h (by decide)

lemma key0X_not_mem_fillerKeys : key0X ∉ fillerKeys := by
  intro hmem
  obtain ⟨i, _, hik⟩ := List.mem_map.mp hmem
  exact fillerKey_ne_key0X i hik

lemma normalizeAddr_fillerHash (i : Nat) :
    normalizeAddr (fillerHash i) = fillerHash i := by
  show String.mk ((List.replicate (i + 1) 'a').map Char.toLower) =
    String.mk (List.replicate (i + 1) 'a')
  rw [List.map_replicate]
  rfl

lemma fillerHash_ne_empty (i : Nat) : fillerHash i ≠ "" := by
  intro h
  have h2 := congrArg String.length h
  rw [fillerHash_length, show ("" : String).length = 0 from rfl] at h2
  exact absurd h2 (by omega)

lemma classify_buy_mk (cfg : Config) (txh h ft tt tok : String) (amt : Nat)
    (hh : normalizeAddr h = h) (hne : h ≠ "")
    (htok : normalizeAddr tok = tok) (htokne : tok ≠ "")
    (htt : normalizeAddr tt = cfg.watchTopic)
    (hft : normalizeAddr ft ≠ cfg.watchTopic) :
    classify cfg txh (mkTransferLog h ft tt tok amt) = some (h, tok, Side.buy) := by
  unfold classify mkTransferLog
  simp only [List.map_cons, List.map_nil, List.getElem?_cons_zero,
    List.getElem?_cons_succ, htt]
  rw [if_neg hne]
  simp only [hh, htok]
  rw [if_neg (not_or.mpr ⟨hne, htokne⟩), if_neg (fun hc => hc rfl),
    if_neg (by rintro ⟨-, h2⟩; rw [Option.some.injEq] at h2; exact hft h2),
    if_pos trivial]

lemma processLog_fillerStep (i : Nat) (s : EngineState)
    (hfresh : fillerKey i ∉ s.seen) :
    processLog cfgA "txf" envDummy
      (mkTransferLog (fillerHash i) "0xother" "0xwatch" "tig" 1) s =
      ⟨{ s with seen := s.seen ++ [fillerKey i] }, [], [], none⟩ := by
  have hcl := classify_buy_mk cfgA "txf" (fillerHash i) "0xother" "0xwatch" "tig" 1
    (normalizeAddr_fillerHash i) (fillerHash_ne_empty i) (by decide) (by decide)
    (by decide) (by decide)
  have hfresh2 : dedupKey (fillerHash i) "tig" Side.buy ∉ s.seen := hfresh
  unfold processLog
  rw [hcl]
  simp only []
  rw [if_neg hfresh2, if_pos (by decide : ("tig" : String) ∈ cfgA.ignoreTokens)]
  rfl

lemma processLog_execStep (e : Env) (s : EngineState)
    (hq : e.buyQuote = some quoteX)
    (hfresh : key0X ∉ s.seen)
    (hgate : isTradeAllowedByRate s.trades e.nowMs cfgA.maxTradesPerHour
      cfgA.cooldownSeconds = GateResult.ok) :
    processLog cfgA "0xtxa" e lgX s =
      ⟨{ s with seen := s.seen ++ [key0X], trades := s.trades ++ [execTrade e] },
        [persistState
          { s with seen := s.seen ++ [key0X], trades := s.trades ++ [execTrade e] }],
        [actX], some key0X⟩ := by
  have hcl := classify_buy_mk cfgA "0xtxa" "0xh0" "0xother" "0xwatch" "0xtok" 1
    (by decide) (by decide) (by decide) (by decide) (by decide) (by decide)
  have hfresh2 : dedupKey "0xh0" "0xtok" Side.buy ∉ s.seen := hfresh
  unfold processLog lgX
  rw [hcl]
  simp only []
  rw [if_neg hfresh2, if_neg (by decide : ¬ ("0xtok" : String) ∈ cfgA.ignoreTokens)]
  simp only [mkTransferLog]
  rw [if_neg (by decide : ¬ (1 = 0)), hgate]
  unfold buyPath
  rw [hq]
  simp only [quoteX]
  rw [if_neg (by decide), if_pos (by decide : cfgA.dryRun = true)]
  rfl

end Clawnch

namespace Clawnch

lemma fillerKeys_length : fillerKeys.length = 20000 := by
  simp [fillerKeys]

lemma foldl_fillers (l : List Nat) (acc : RunOut)
    (hnodup : (l.map fillerKey).Nodup)
    (hdisj : ∀ i ∈ l, fillerKey i ∉ acc.state.seen) :
    List.foldl (applyEv cfgA) acc (l.map fillerEv) =
      { acc with state := { acc.state with seen := acc.state.seen ++ l.map fillerKey } } := by
  induction l generalizing acc with
  | nil => simp
  | cons i rest ih =>
    rw [List.map_cons, List.foldl_cons]
    have hstep : applyEv cfgA acc (fillerEv i) =
        { acc with state := { acc.state with seen := acc.state.seen ++ [fillerKey i] } } := by
      show stepRun cfgA "txf" acc
        (mkTransferLog (fillerHash i) "0xother" "0xwatch" "tig" 1, envDummy) = _
      unfold stepRun
      rw [processLog_fillerStep i acc.state (hdisj i (List.mem_cons_self _ _))]
      simp
    rw [hstep]
    rw [List.map_cons, List.nodup_cons] at hnodup
    rw [ih _ hnodup.2 ?hdisj2]
    case hdisj2 =>
      intro j hj hmem
      rcases List.mem_append.mp hmem with hmem | hmem
      · exact hdisj j (List.mem_cons_of_mem _ hj) hmem
      · rw [List.mem_singleton] at hmem
        exact hnodup.1 (hmem ▸ List.mem_map_of_mem fillerKey hj)
    simp [List.append_assoc]

lemma key0X_not_mem_stateC : key0X ∉ stateC.seen := by
  unfold stateC
  simp only []
  exact key0X_not_mem_fillerKeys

lemma reload_stateB : reloadState stateB = stateC := by
  unfold reloadState persistState stateB stateC
  simp [fillerKeys_length]

lemma c1_trace_eval : runTrace cfgA initialState evsX = accD := by
  have h0 : applyEv cfgA ⟨initialState, [], [], []⟩ ev0X = accA := by decide
  have hF : List.foldl (applyEv cfgA) accA ((List.range 20000).map fillerEv) = accB := by
    rw [foldl_fillers (List.range 20000) accA
      (by exact fillerKeys_nodup)
      (by
        intro i _ hmem
        have : fillerKey i = key0X := by simpa [accA, stateA] using hmem
        exact fillerKey_ne_key0X i this)]
    show ({ accA with
      state := { accA.state with seen := accA.state.seen ++ fillerKeys } } : RunOut) = accB
    simp [accA, accB, stateA, stateB]
  have hR : applyEv cfgA accB TraceEv.restart = accC := by
    show (⟨reloadState accB.state, accB.persists ++ [persistState accB.state],
      accB.actions, accB.execs⟩ : RunOut) = accC
    rw [show accB.state = stateB from rfl, reload_stateB]
    simp [accB, accC]
  have hE : applyEv cfgA accC ev1X = accD := by
    show stepRun cfgA "0xtxa" accC (lgX, envX1) = accD
    unfold stepRun
    simp only [accC]
    rw [processLog_execStep envX1 stateC rfl key0X_not_mem_stateC (by decide)]
    simp [accC, accD, stateC, stateD]
  unfold runTrace evsX
  rw [List.foldl_cons, h0, List.foldl_append, hF, List.foldl_cons, hR,
    List.foldl_cons, hE, List.foldl_nil]

/-- Counterexample for C1 as stated: after one execution of identity
`key0X`, 20000 further identities, a restart (which reloads the persisted
seen set, trimmed to its last 20000 entries), and a re-scan of the same
signal, the engine quotes-and-executes and appends a trade record for
`key0X` a SECOND time — at-most-once across restarts fails once the
identity is evicted from the bounded seen set. -/
theorem c1_counterexample :
    ¬ ((runTrace cfgA initialState evsX).execs.count key0X ≤ 1) := by
  rw [c1_trace_eval]
  decide

end Clawnch

namespace Clawnch

lemma foldl_execs_count (cfg : Config) (key : String) :
    ∀ evs : List TraceEv, TraceEv.restart ∉ evs →
      ∀ acc : RunOut,
        (List.foldl (applyEv cfg) acc evs).execs.count key ≤
          acc.execs.count key + (if key ∈ acc.state.seen then 0 else 1) := by
  intro evs
  induction evs with
  | nil =>
    intro _ acc
    simp only [List.foldl_nil]
    split <;> omega
  | cons ev rest ih =>
    intro hnr acc
    have hnr2 : TraceEv.restart ∉ rest := fun h => hnr (List.mem_cons_of_mem _ h)
    rw [List.foldl_cons]
    cases ev with
    | restart => exact absurd (List.mem_cons_self _ _) hnr
    | sig txh e lg =>
      have happly : applyEv cfg acc (TraceEv.sig txh e lg) = stepRun cfg txh acc (lg, e) :=
        rfl
      rw [happly]
      refine le_trans (ih hnr2 (stepRun cfg txh acc (lg, e))) ?_
      have hexecs : (stepRun cfg txh acc (lg, e)).execs =
          acc.execs ++ (processLog cfg txh e lg acc.state).execOf.toList := rfl
      have hstate : (stepRun cfg txh acc (lg, e)).state =
          (processLog cfg txh e lg acc.state).state := rfl
      rw [hexecs, hstate, List.count_append]
      by_cases hk : key ∈ acc.state.seen
      · rw [if_pos hk, if_pos (processLog_seen_mono cfg txh e lg acc.state key hk)]
        have hc0 : ((processLog cfg txh e lg acc.state).execOf.toList).count key = 0 := by
          rcases hex : (processLog cfg txh e lg acc.state).execOf with _ | k
          · rfl
          · rcases eq_or_ne k key with rfl | hne
            · exact absurd hk (processLog_execOf cfg txh e lg acc.state k hex).1
            · simp [Option.toList, List.count_cons, hne]
        rw [hc0]
      · rw [if_neg hk]
        rcases hex : (processLog cfg txh e lg acc.state).execOf with _ | k
        · simp only [Option.toList, List.count_nil]
          split <;> omega
        · rcases eq_or_ne k key with rfl | hne
          · have hseen := (processLog_execOf cfg txh e lg acc.state k hex).2
            have hmem : k ∈ (processLog cfg txh e lg acc.state).state.seen := by
              rw [hseen]
              exact List.mem_append_right _ (List.mem_singleton.mpr rfl)
            rw [if_pos hmem]
            simp [Option.toList, List.count_cons]
          · have hc0 : ((some k).toList).count key = 0 := by
              simp [Option.toList, List.count_cons, hne]
            rw [hc0]
            split <;> omega

/-- C1 (amended): within a single process run — any number of scan cycles
with no restart event — a dedup identity reaches the quote-and-execute
stage at most once: the first execution records the identity in the
in-memory seen set, which only grows during a run, and every later signal
with the same identity is dropped at the dedup check.  (Across a restart
the guarantee holds only while the identity survives the persisted seen
set, which is trimmed to its most recent 20000 entries — see the
counterexample.) -/
theorem c1_dedup_at_most_once (cfg : Config) (s : EngineState)
    (evs : List TraceEv) (key : String) (hnr : TraceEv.restart ∉ evs) :
    (runTrace cfg s evs).execs.count key ≤ 1 := by
  unfold runTrace
  refine le_trans (foldl_execs_count cfg key evs hnr ⟨s, [], [], []⟩) ?_
  simp only [List.count_nil]
  split <;> omega

/-- Witness for C1's amended theorem on a concrete restart-free trace. -/
theorem c1_witness :
    TraceEv.restart ∉ [ev0X] ∧
      (runTrace cfgA initialState [ev0X]).execs.count key0X ≤ 1 :=
  ⟨by decide, c1_dedup_at_most_once cfgA initialState [ev0X] key0X (by decide)⟩

end Clawnch
